import Mathlib

/-!
Shallow embedding of `src/parabola_optics.py` (class `ParabolaOptics` and
its ray helpers) over the exact reals.  The float arithmetic of the source
is idealised as `ℝ`; Lean's total division (`x / 0 = 0`) replaces the
float `inf`/`nan` artefacts, and where a claim hinges on an actual
division by zero the zero denominator itself is stated explicitly.
`np.allclose(a, b)` on the focus fast-path is modelled as exact equality.
-/

noncomputable section

open scoped Classical

/-- A 2-vector of reals, standing in for the length-2 numpy arrays of the
source. -/
@[ext]
structure Vec2 where
  x : ℝ
  y : ℝ

namespace Vec2

instance : Add Vec2 := ⟨fun a b => ⟨a.x + b.x, a.y + b.y⟩⟩

instance : Sub Vec2 := ⟨fun a b => ⟨a.x - b.x, a.y - b.y⟩⟩

instance : SMul ℝ Vec2 := ⟨fun c v => ⟨c * v.x, c * v.y⟩⟩

@[simp] lemma add_x (a b : Vec2) : (a + b).x = a.x + b.x := rfl

@[simp] lemma add_y (a b : Vec2) : (a + b).y = a.y + b.y := rfl

@[simp] lemma sub_x (a b : Vec2) : (a - b).x = a.x - b.x := rfl

@[simp] lemma sub_y (a b : Vec2) : (a - b).y = a.y - b.y := rfl

@[simp] lemma smul_x (c : ℝ) (v : Vec2) : (c • v).x = c * v.x := rfl

@[simp] lemma smul_y (c : ℝ) (v : Vec2) : (c • v).y = c * v.y := rfl

/-- `np.dot` on 2-vectors. -/
def dot (a b : Vec2) : ℝ := a.x * b.x + a.y * b.y

/-- `np.linalg.norm` on 2-vectors. -/
def norm (v : Vec2) : ℝ := Real.sqrt (dot v v)

lemma dot_self_nonneg (v : Vec2) : 0 ≤ dot v v := by
  have hx : 0 ≤ v.x * v.x := mul_self_nonneg _
  have hy : 0 ≤ v.y * v.y := mul_self_nonneg _
  simpa [dot] using add_nonneg hx hy

/-- Evaluate the norm when the squared length has a known non-negative
square root. -/
lemma norm_eq_of_sq (v : Vec2) (c : ℝ) (hc : 0 ≤ c) (h : dot v v = c ^ 2) :
    norm v = c := by
  rw [norm, h]
  exact Real.sqrt_sq hc

end Vec2

/-- State of the `ParabolaOptics` class: `__init__` stores the focal
length `focus` and the directrix level `-focus`.  No validation of the
argument is performed by the source. -/
structure ParabolaOptics where
  focus : ℝ
  directrix : ℝ

/-- `ParabolaOptics.__init__(focus)`: stores `focus` and `-focus`,
accepting any real argument. -/
def ParabolaOptics.init (focus : ℝ) : ParabolaOptics := ⟨focus, -focus⟩

/-- The focal-length mutation `optics.focus = focus` performed by the UI
`update` handler (the spec's `setFocus`): a plain attribute assignment
that touches only the `focus` field. -/
def ParabolaOptics.setFocus (p : ParabolaOptics) (f : ℝ) : ParabolaOptics :=
  { p with focus := f }

/-- `parabola_y`: the curve `y = x^2 / (4 f)`. -/
def parabola_y (f x : ℝ) : ℝ := x ^ 2 / (4 * f)

/-- `get_tangent_slope`: the slope `x / (2 f)` of the curve at `x`. -/
def get_tangent_slope (f x : ℝ) : ℝ := x / (2 * f)

/-- Focus fast-path of `reflect_ray` (source lines 29-53): the ray is
assumed to start at `(0, f)`; solve `(dx^2/(4f)) t^2 - dy t - f = 0`,
prefer the `+sqrt` root, fall back to the `-sqrt` root when the first is
negative, and give up when both are negative. -/
def focusBranch (f : ℝ) (d : Vec2) : Option (Vec2 × ℝ) :=
  let a := d.x ^ 2 / (4 * f)
  let b := -d.y
  let disc := b ^ 2 - 4 * a * (-f)
  if disc < 0 then none
  else
    let t1 := (-b + Real.sqrt disc) / (2 * a)
    if t1 < 0 then
      let t2 := (-b - Real.sqrt disc) / (2 * a)
      if t2 < 0 then none
      else some (⟨0 + t2 * d.x, f + t2 * d.y⟩, t2)
    else some (⟨0 + t1 * d.x, f + t1 * d.y⟩, t1)

/-- Vertical-ray branch of `reflect_ray` (source lines 54-63): `dx = 0`,
origin away from the focus.  A horizontal ray (`dy = 0` as well) misses;
otherwise the hit is at the origin's `x` and strictly positive travel is
required (`t ≤ 0` is rejected). -/
def verticalBranch (f : ℝ) (s d : Vec2) : Option (Vec2 × ℝ) :=
  let yp := parabola_y f s.x
  if d.y = 0 then none
  else
    let t := (yp - s.y) / d.y
    if t ≤ 0 then none
    else some (⟨s.x, yp⟩, t)

/-- General branch of `reflect_ray` (source lines 64-79): quadratic
`a t^2 + b t + c = 0` with `a = dx^2`, `b = 2 x0 dx - 4 f dy`,
`c = x0^2 - 4 f y0`; takes only the `-sqrt` (smaller) root and rejects
it when negative. -/
def generalBranch (f : ℝ) (s d : Vec2) : Option (Vec2 × ℝ) :=
  let a := d.x ^ 2
  let b := 2 * s.x * d.x - 4 * f * d.y
  let c := s.x ^ 2 - 4 * f * s.y
  let disc := b ^ 2 - 4 * a * c
  if disc < 0 then none
  else
    let t := (-b - Real.sqrt disc) / (2 * a)
    if t < 0 then none
    else some (⟨s.x + t * d.x, s.y + t * d.y⟩, t)

/-- Branch dispatch of `reflect_ray` (source lines 29, 54, 64): focus
fast-path first (`np.allclose` modelled as exact equality), then the
vertical case, then the general quadratic. -/
def intersectRay (f : ℝ) (s d : Vec2) : Option (Vec2 × ℝ) :=
  if s = (⟨0, f⟩ : Vec2) then focusBranch f d
  else if d.x = 0 then verticalBranch f s d
  else generalBranch f s d

/-- Unit normal used by `reflect_ray` (source lines 82-94): the normal
slope is `-1 / tangent_slope`; when the tangent slope is zero the
"infinite slope" case yields `(0, 1)`, otherwise `(1, normal_slope)` is
normalised. -/
def normalVec (f : ℝ) (hitx : ℝ) : Vec2 :=
  if get_tangent_slope f hitx = 0 then ⟨0, 1⟩
  else
    (1 / Vec2.norm ⟨1, -1 / get_tangent_slope f hitx⟩) •
      (⟨1, -1 / get_tangent_slope f hitx⟩ : Vec2)

/-- Reflection step of `reflect_ray` (source lines 81-97): normalise the
incident direction and apply
`reflected = incident - 2 (incident . normal) normal`. -/
def reflectDir (f : ℝ) (hitx : ℝ) (d : Vec2) : Vec2 :=
  (1 / Vec2.norm d) • d -
    (2 * Vec2.dot ((1 / Vec2.norm d) • d) (normalVec f hitx)) • normalVec f hitx

/-- `ParabolaOptics.reflect_ray`: intersection search followed by the
reflection step; `None` models the source's absent result. -/
def reflect_ray (f : ℝ) (s d : Vec2) : Option (Vec2 × Vec2 × ℝ) :=
  (intersectRay f s d).map fun pt => (pt.1, reflectDir f pt.1.x d, pt.2)

/-- `np.linspace(lo, hi, n)`: `n` evenly spaced points from `lo` to `hi`
inclusive (`[lo]` when `n = 1`, empty when `n = 0`). -/
def linspace (lo hi : ℝ) (n : ℕ) : List ℝ :=
  if n = 1 then [lo]
  else (List.range n).map fun i => lo + i * ((hi - lo) / ((n : ℝ) - 1))

/-- `ParabolaOptics.generate_parallel_rays` (source lines 101-110):
origins `(x, 10)` for `x` evenly spaced over `x_range`, all with
direction `(0, -1)`.  The method reads nothing from `self`. -/
def ParabolaOptics.generate_parallel_rays (_p : ParabolaOptics)
    (num_rays : ℕ) (x_range : ℝ × ℝ) : List (Vec2 × Vec2) :=
  (linspace x_range.1 x_range.2 num_rays).map fun x =>
    ((⟨x, 10⟩ : Vec2), (⟨0, -1⟩ : Vec2))

/-- `ParabolaOptics.generate_focal_rays` (source lines 112-127): rays
from the focus `(0, f)` toward the curve points at `x` evenly spaced over
`[-3, 3]`, directions normalised. -/
def ParabolaOptics.generate_focal_rays (p : ParabolaOptics)
    (num_rays : ℕ) : List (Vec2 × Vec2) :=
  (linspace (-3) 3 num_rays).map fun x =>
    let yp := parabola_y p.focus x
    let d : Vec2 := ⟨x - 0, yp - p.focus⟩
    ((⟨0, p.focus⟩ : Vec2), (1 / Vec2.norm d) • d)

/-! ### Branch dispatch lemmas -/

lemma reflect_ray_focus (f : ℝ) (d : Vec2) :
    reflect_ray f ⟨0, f⟩ d =
      (focusBranch f d).map fun pt => (pt.1, reflectDir f pt.1.x d, pt.2) := by
  unfold reflect_ray intersectRay
  rw [if_pos rfl]

lemma reflect_ray_vertical (f : ℝ) (s d : Vec2) (hs : s ≠ ⟨0, f⟩)
    (hdx : d.x = 0) :
    reflect_ray f s d =
      (verticalBranch f s d).map fun pt => (pt.1, reflectDir f pt.1.x d, pt.2) := by
  unfold reflect_ray intersectRay
  rw [if_neg hs, if_pos hdx]

lemma reflect_ray_general (f : ℝ) (s d : Vec2) (hs : s ≠ ⟨0, f⟩)
    (hdx : d.x ≠ 0) :
    reflect_ray f s d =
      (generalBranch f s d).map fun pt => (pt.1, reflectDir f pt.1.x d, pt.2) := by
  unfold reflect_ray intersectRay
  rw [if_neg hs, if_neg hdx]

/-- Any returned triple consists of a point and parameter produced by the
intersection search, with the reflected direction computed at the hit's
`x`-coordinate. -/
lemma reflect_ray_some_elim (f : ℝ) (s d : Vec2) (p r : Vec2) (t : ℝ)
    (h : reflect_ray f s d = some (p, r, t)) :
    intersectRay f s d = some (p, t) ∧ r = reflectDir f p.x d := by
  unfold reflect_ray at h
  cases hI : intersectRay f s d with
  | none => simp [hI] at h
  | some pt =>
      obtain ⟨q, u⟩ := pt
      simp only [hI, Option.map_some', Option.some.injEq, Prod.mk.injEq] at h
      obtain ⟨h1, h2, h3⟩ := h
      subst h1
      subst h3
      exact ⟨rfl, h2.symm⟩

/-! ### Reflection algebra -/

lemma Vec2.smul_smul (a b : ℝ) (v : Vec2) : a • (b • v) = (a * b) • v := by
  ext <;> simp [mul_assoc]

lemma Vec2.dot_smul_right (j : Vec2) (c : ℝ) (n : Vec2) :
    Vec2.dot j (c • n) = c * Vec2.dot j n := by
  simp [Vec2.dot]
  ring

/-- Normalising a vector of positive squared length yields a unit vector
(in the squared sense). -/
lemma normalized_dot_self (v : Vec2) (hv : 0 < Vec2.dot v v) :
    Vec2.dot ((1 / Vec2.norm v) • v) ((1 / Vec2.norm v) • v) = 1 := by
  have hs : Vec2.norm v * Vec2.norm v = v.x * v.x + v.y * v.y :=
    Real.mul_self_sqrt hv.le
  have hN : Vec2.norm v ≠ 0 := by
    intro h0
    rw [h0, mul_zero] at hs
    exact (ne_of_gt hv) hs.symm
  simp only [Vec2.dot, Vec2.smul_x, Vec2.smul_y]
  have hcollect : (1 / Vec2.norm v * v.x) * (1 / Vec2.norm v * v.x) +
      (1 / Vec2.norm v * v.y) * (1 / Vec2.norm v * v.y) =
      (v.x * v.x + v.y * v.y) / (Vec2.norm v * Vec2.norm v) := by
    field_simp
  rw [hcollect, hs]
  exact div_self (ne_of_gt hv)

/-- The mirror formula against a normalised normal, rewritten with the
unnormalised normal: the two normalisation factors combine into a
division by the squared length. -/
lemma reflect_unnormalize (i n : Vec2) (hn : 0 < Vec2.dot n n) :
    i - (2 * Vec2.dot i ((1 / Vec2.norm n) • n)) • ((1 / Vec2.norm n) • n) =
      i - ((2 * Vec2.dot i n) / Vec2.dot n n) • n := by
  have hs : Vec2.norm n * Vec2.norm n = Vec2.dot n n :=
    Real.mul_self_sqrt hn.le
  have hN : Vec2.norm n ≠ 0 := by
    intro h0
    rw [h0, mul_zero] at hs
    exact (ne_of_gt hn) hs.symm
  rw [Vec2.dot_smul_right, Vec2.smul_smul]
  have hc : (2 * (1 / Vec2.norm n * Vec2.dot i n)) * (1 / Vec2.norm n) =
      (2 * Vec2.dot i n) / Vec2.dot n n := by
    rw [← hs]
    field_simp
  rw [hc]

/-- Rational closed form of the reflection step away from the vertex:
when the tangent slope is nonzero the unit-normal construction can be
replaced by a division by the squared length of `(1, -1/slope)`. -/
lemma reflectDir_of_slope_ne (f hitx : ℝ) (d : Vec2)
    (h : get_tangent_slope f hitx ≠ 0) :
    reflectDir f hitx d =
      (1 / Vec2.norm d) • d -
        ((2 * Vec2.dot ((1 / Vec2.norm d) • d)
              ⟨1, -1 / get_tangent_slope f hitx⟩) /
            Vec2.dot (⟨1, -1 / get_tangent_slope f hitx⟩ : Vec2)
              ⟨1, -1 / get_tangent_slope f hitx⟩) •
          (⟨1, -1 / get_tangent_slope f hitx⟩ : Vec2) := by
  unfold reflectDir normalVec
  rw [if_neg h]
  refine reflect_unnormalize _ _ ?_
  simp only [Vec2.dot]
  nlinarith [mul_self_nonneg (-1 / get_tangent_slope f hitx)]

/-! ### Concrete evaluation helpers -/

lemma norm_down_one : Vec2.norm ⟨0, -1⟩ = 1 :=
  Vec2.norm_eq_of_sq _ 1 zero_le_one (by norm_num [Vec2.dot])

lemma reflectDir_vertex_down : reflectDir 1 0 ⟨0, -1⟩ = ⟨0, 1⟩ := by
  have hn : normalVec 1 0 = ⟨0, 1⟩ := by
    unfold normalVec get_tangent_slope
    norm_num
  unfold reflectDir
  rw [hn, norm_down_one]
  ext <;> norm_num [Vec2.dot]

/-- Evaluation of the focus fast-path on the ray from the focus straight
down (`f = 1`).  The executed root division there is `0 / 0`, which this
embedding's total division evaluates to `t = 0`; the resulting "hit" is
the focus `(0, 1)` itself.  (In float arithmetic the same division gives
`t = nan` and the returned triple is all-nan.) -/
lemma reflect_focus_down_eval :
    reflect_ray 1 ⟨0, 1⟩ ⟨0, -1⟩ = some (⟨0, 1⟩, ⟨0, 1⟩, 0) := by
  have hb : focusBranch 1 ⟨0, -1⟩ = some (⟨0, 1⟩, 0) := by
    unfold focusBranch
    norm_num [Real.sqrt_one]
  rw [reflect_ray_focus, hb]
  simp [reflectDir_vertex_down]

/-- The default five-ray focal bundle at `f = 1` contains the ray from
the focus straight down: `np.linspace(-3, 3, 5)` includes `x = 0`, whose
curve point is the vertex, giving the normalised direction `(0, -1)`
from origin `(0, 1)`. -/
lemma focal_bundle_contains_down :
    ((⟨0, 1⟩ : Vec2), (⟨0, -1⟩ : Vec2)) ∈
      ParabolaOptics.generate_focal_rays (ParabolaOptics.init 1) 5 := by
  have hrange : List.range 5 = [0, 1, 2, 3, 4] := rfl
  have hls : linspace (-3 : ℝ) 3 5 = [-3, -3 / 2, 0, 3 / 2, 3] := by
    rw [linspace, if_neg (by norm_num), hrange]
    norm_num
  unfold ParabolaOptics.generate_focal_rays
  simp only [ParabolaOptics.init, hls, List.map_cons, List.map_nil]
  have hd : (⟨(0 : ℝ) - 0, parabola_y 1 0 - 1⟩ : Vec2) = ⟨0, -1⟩ := by
    ext <;> norm_num [parabola_y]
  simp only [List.mem_cons]
  right
  right
  left
  rw [hd, norm_down_one]
  refine Prod.ext rfl ?_
  ext <;> norm_num

/-! ### C1 -/

/-- Reflecting the downward unit vector at the curve point above `x0`
sends it toward the focus: the reflected direction is the positive
multiple `4 f / (x0^2 + 4 f^2)` of the vector from the hit point to
`(0, f)`. -/
lemma vertical_reflect (f x0 : ℝ) (hf : 0 < f) :
    reflectDir f x0 ⟨0, -1⟩ =
      (4 * f / (x0 ^ 2 + 4 * f ^ 2)) •
        ((⟨0, f⟩ : Vec2) - ⟨x0, x0 ^ 2 / (4 * f)⟩) := by
  have hf0 : f ≠ 0 := ne_of_gt hf
  have hden : x0 ^ 2 + 4 * f ^ 2 ≠ 0 := by positivity
  by_cases hx : x0 = 0
  · subst hx
    have hts : get_tangent_slope f 0 = 0 := by
      unfold get_tangent_slope
      simp
    unfold reflectDir normalVec
    rw [hts, if_pos rfl, norm_down_one]
    ext <;> simp [Vec2.dot] <;> field_simp <;> ring
  · have hts : get_tangent_slope f x0 ≠ 0 := by
      unfold get_tangent_slope
      exact div_ne_zero hx (by positivity)
    rw [reflectDir_of_slope_ne f x0 _ hts, norm_down_one]
    have hns : (-1 : ℝ) / get_tangent_slope f x0 = -(2 * f) / x0 := by
      unfold get_tangent_slope
      field_simp
    rw [hns]
    have hinc : ((1 : ℝ) / 1) • (⟨0, -1⟩ : Vec2) = ⟨0, -1⟩ := by
      ext <;> norm_num
    rw [hinc]
    have hdot1 : Vec2.dot ⟨0, -1⟩ ⟨1, -(2 * f) / x0⟩ = 2 * f / x0 := by
      simp [Vec2.dot]
      ring
    have hdot2 : Vec2.dot (⟨1, -(2 * f) / x0⟩ : Vec2) ⟨1, -(2 * f) / x0⟩ =
        (x0 ^ 2 + 4 * f ^ 2) / x0 ^ 2 := by
      simp only [Vec2.dot]
      field_simp
      ring
    rw [hdot1, hdot2]
    have hscal : (2 * (2 * f / x0)) / ((x0 ^ 2 + 4 * f ^ 2) / x0 ^ 2) =
        4 * f * x0 / (x0 ^ 2 + 4 * f ^ 2) := by
      field_simp
      ring
    rw [hscal]
    ext <;> simp [Vec2.dot] <;> field_simp <;> ring

/-- Claim C1: for `f > 0` and a vertical downward ray at `x0` launched
from height 10 above the curve (and not from the focus), `reflect_ray`
hits `(x0, x0^2/(4 f))` and the reflected direction is a positive scalar
multiple of the vector from the hit point to the focus `(0, f)`. -/
theorem C1_parallel_ray_reflects_through_focus (f x0 : ℝ) (hf : 0 < f)
    (hlt : x0 ^ 2 / (4 * f) < 10) (hne : (⟨x0, 10⟩ : Vec2) ≠ ⟨0, f⟩) :
    ∃ c t : ℝ, 0 < c ∧
      reflect_ray f ⟨x0, 10⟩ ⟨0, -1⟩ =
        some (⟨x0, x0 ^ 2 / (4 * f)⟩,
          c • ((⟨0, f⟩ : Vec2) - ⟨x0, x0 ^ 2 / (4 * f)⟩), t) := by
  refine ⟨4 * f / (x0 ^ 2 + 4 * f ^ 2), 10 - x0 ^ 2 / (4 * f),
    by positivity, ?_⟩
  rw [reflect_ray_vertical f ⟨x0, 10⟩ ⟨0, -1⟩ hne rfl]
  have hvb : verticalBranch f ⟨x0, 10⟩ ⟨0, -1⟩ =
      some (⟨x0, x0 ^ 2 / (4 * f)⟩, 10 - x0 ^ 2 / (4 * f)) := by
    simp only [verticalBranch, parabola_y]
    rw [if_neg (by norm_num)]
    have ht : (x0 ^ 2 / (4 * f) - (10 : ℝ)) / (-1) = 10 - x0 ^ 2 / (4 * f) := by
      ring
    rw [ht, if_neg (by simp only [not_le]; linarith)]
  rw [hvb]
  simp only [Option.map_some']
  rw [vertical_reflect f x0 hf]

/-- Witness for C1 at `f = 1`, `x0 = 2`: the concrete scenario of the
spec (hit `(2, 1)`, reflected direction aimed at `(0, 1)`). -/
theorem C1_witness :
    ∃ c t : ℝ, 0 < c ∧
      reflect_ray 1 ⟨2, 10⟩ ⟨0, -1⟩ =
        some (⟨2, 2 ^ 2 / (4 * 1)⟩,
          c • ((⟨0, 1⟩ : Vec2) - ⟨2, 2 ^ 2 / (4 * 1)⟩), t) :=
  C1_parallel_ray_reflects_through_focus 1 2 (by norm_num) (by norm_num)
    (by
      intro h
      have := congrArg Vec2.y h
      norm_num at this)

/-! ### C2 -/

/-- A ray from the focus toward the curve point above `x` is handled by
the focus fast-path: it hits exactly `(x, x^2/(4 f))` at `t = 1` and
reflects to the vertical unit direction `(0, 1)` — parallel to the
parabola's axis of symmetry (the y-axis), not to the x-axis. -/
lemma focal_reflect (f x : ℝ) (hf : 0 < f) (hx : x ≠ 0) :
    reflect_ray f ⟨0, f⟩ ⟨x, x ^ 2 / (4 * f) - f⟩ =
      some (⟨x, x ^ 2 / (4 * f)⟩, ⟨0, 1⟩, 1) := by
  have hf0 : f ≠ 0 := ne_of_gt hf
  have hx2 : 0 < x ^ 2 := by
    rcases lt_or_gt_of_ne hx with h | h
    · nlinarith
    · nlinarith
  have hypos : 0 < x ^ 2 / (4 * f) := div_pos hx2 (by positivity)
  have hfy : 0 < f + x ^ 2 / (4 * f) := by positivity
  have hA : x ^ 2 + 4 * f ^ 2 ≠ 0 := by positivity
  have hB : 4 * f ^ 2 + x ^ 2 ≠ 0 := by positivity
  rw [reflect_ray_focus]
  have hdisc : (-(x ^ 2 / (4 * f) - f)) ^ 2 - 4 * (x ^ 2 / (4 * f)) * (-f) =
      (f + x ^ 2 / (4 * f)) ^ 2 := by
    field_simp
    ring
  have hfb : focusBranch f ⟨x, x ^ 2 / (4 * f) - f⟩ =
      some (⟨x, x ^ 2 / (4 * f)⟩, 1) := by
    simp only [focusBranch]
    rw [hdisc, Real.sqrt_sq hfy.le, if_neg (not_lt.mpr (sq_nonneg _))]
    have ht1 : (-(-(x ^ 2 / (4 * f) - f)) + (f + x ^ 2 / (4 * f))) /
        (2 * (x ^ 2 / (4 * f))) = 1 := by
      rw [div_eq_one_iff_eq (by positivity)]
      ring
    rw [ht1, if_neg (by norm_num)]
    simp only [Option.some.injEq, Prod.mk.injEq, Vec2.mk.injEq]
    refine ⟨⟨by ring, by ring⟩, trivial⟩
  rw [hfb]
  simp only [Option.map_some']
  have hts : get_tangent_slope f x ≠ 0 := by
    unfold get_tangent_slope
    exact div_ne_zero hx (by positivity)
  have hrd : reflectDir f x ⟨x, x ^ 2 / (4 * f) - f⟩ = ⟨0, 1⟩ := by
    rw [reflectDir_of_slope_ne f x _ hts]
    have hnormd : Vec2.norm ⟨x, x ^ 2 / (4 * f) - f⟩ = f + x ^ 2 / (4 * f) := by
      apply Vec2.norm_eq_of_sq _ _ hfy.le
      simp only [Vec2.dot]
      field_simp
      ring
    rw [hnormd]
    have hns : (-1 : ℝ) / get_tangent_slope f x = -(2 * f) / x := by
      unfold get_tangent_slope
      field_simp
    rw [hns]
    have hdot1 : Vec2.dot
        ((1 / (f + x ^ 2 / (4 * f))) • ⟨x, x ^ 2 / (4 * f) - f⟩)
        ⟨1, -(2 * f) / x⟩ = 2 * f / x := by
      simp only [Vec2.dot, Vec2.smul_x, Vec2.smul_y]
      field_simp
      ring
    have hdot2 : Vec2.dot (⟨1, -(2 * f) / x⟩ : Vec2) ⟨1, -(2 * f) / x⟩ =
        (x ^ 2 + 4 * f ^ 2) / x ^ 2 := by
      simp only [Vec2.dot]
      field_simp
      ring
    rw [hdot1, hdot2]
    have hscal : (2 * (2 * f / x)) / ((x ^ 2 + 4 * f ^ 2) / x ^ 2) =
        4 * f * x / (x ^ 2 + 4 * f ^ 2) := by
      field_simp
      ring
    rw [hscal]
    ext
    · simp only [Vec2.sub_x, Vec2.smul_x]
      field_simp
      ring
    · simp only [Vec2.sub_y, Vec2.smul_y]
      field_simp
      ring
  simp [hrd]

/-- Claim C2 counterexample: at `f = 1`, `x = 2` the direction
`(x, x^2/(4 f) - f)` is `(2, 0)`; the returned reflected direction is
`(0, 1)`, whose y-component is 1 (not 0) and whose x-component is 0 (not
positive), so the claim as stated fails at this input. -/
theorem C2_focal_ray_cex :
    reflect_ray 1 ⟨0, 1⟩ ⟨2, 0⟩ = some (⟨2, 1⟩, ⟨0, 1⟩, 1) ∧
    ¬ ∀ p r : Vec2, ∀ t : ℝ,
        reflect_ray 1 ⟨0, 1⟩ ⟨2, 0⟩ = some (p, r, t) → r.y = 0 ∧ 0 < r.x := by
  have h := focal_reflect 1 2 (by norm_num) (by norm_num)
  norm_num at h
  refine ⟨h, ?_⟩
  intro hall
  have hc := hall ⟨2, 1⟩ ⟨0, 1⟩ 1 h
  norm_num at hc

/-- Claim C2 as amended: the ray from the focus toward `(x, x^2/(4 f))`
hits exactly that curve point at `t = 1`, and the reflected unit
direction is `(0, 1)` — x-component 0 and y-component 1, i.e. parallel
to the axis of symmetry (the y-axis), for every `f > 0` and nonzero `x`. -/
theorem C2_focal_ray_axis_parallel (f x : ℝ) (hf : 0 < f) (hx : x ≠ 0) :
    reflect_ray f ⟨0, f⟩ ⟨x, x ^ 2 / (4 * f) - f⟩ =
      some (⟨x, x ^ 2 / (4 * f)⟩, ⟨0, 1⟩, 1) :=
  focal_reflect f x hf hx

/-- Witness for the amended C2 at `f = 1`, `x = 2`. -/
theorem C2_witness :
    reflect_ray 1 ⟨0, 1⟩ ⟨(2 : ℝ), 2 ^ 2 / (4 * 1) - 1⟩ =
      some (⟨2, 2 ^ 2 / (4 * 1)⟩, ⟨0, 1⟩, 1) :=
  C2_focal_ray_axis_parallel 1 2 (by norm_num) (by norm_num)

/-! ### C3 -/

lemma norm_right_one : Vec2.norm ⟨1, 0⟩ = 1 :=
  Vec2.norm_eq_of_sq _ 1 zero_le_one (by norm_num [Vec2.dot])

lemma reflectDir_vertex_horiz : reflectDir 1 0 ⟨1, 0⟩ = ⟨1, 0⟩ := by
  have hn : normalVec 1 0 = ⟨0, 1⟩ := by
    unfold normalVec get_tangent_slope
    norm_num
  unfold reflectDir
  rw [hn, norm_right_one]
  ext <;> norm_num [Vec2.dot]

/-- Claim C3: away from the focus and with `dx ≠ 0`, `reflect_ray` uses
the quadratic with `a = dx^2`, `b = 2 x0 dx - 4 f dy`,
`c = x0^2 - 4 f y0`: it returns the absent result when the discriminant
is negative, otherwise forms only the smaller root
`t = (-b - sqrt disc)/(2 a)`, returns the absent result when that root is
negative (no fallback to the larger root), and otherwise returns the hit
at parameter `t`. -/
theorem C3_general_ray_quadratic (f : ℝ) (s d : Vec2) (hs : s ≠ ⟨0, f⟩)
    (hdx : d.x ≠ 0) :
    ((2 * s.x * d.x - 4 * f * d.y) ^ 2 -
        4 * d.x ^ 2 * (s.x ^ 2 - 4 * f * s.y) < 0 →
      reflect_ray f s d = none) ∧
    ∀ t : ℝ,
      t = (-(2 * s.x * d.x - 4 * f * d.y) -
            Real.sqrt ((2 * s.x * d.x - 4 * f * d.y) ^ 2 -
              4 * d.x ^ 2 * (s.x ^ 2 - 4 * f * s.y))) / (2 * d.x ^ 2) →
      (t < 0 → reflect_ray f s d = none) ∧
      (¬ ((2 * s.x * d.x - 4 * f * d.y) ^ 2 -
            4 * d.x ^ 2 * (s.x ^ 2 - 4 * f * s.y) < 0) → 0 ≤ t →
        reflect_ray f s d =
          some (⟨s.x + t * d.x, s.y + t * d.y⟩,
            reflectDir f (s.x + t * d.x) d, t)) := by
  rw [reflect_ray_general f s d hs hdx]
  constructor
  · intro hlt
    simp only [generalBranch]
    rw [if_pos hlt]
    rfl
  · intro t ht
    constructor
    · intro htneg
      simp only [generalBranch]
      by_cases hlt : (2 * s.x * d.x - 4 * f * d.y) ^ 2 -
          4 * d.x ^ 2 * (s.x ^ 2 - 4 * f * s.y) < 0
      · rw [if_pos hlt]
        rfl
      · rw [if_neg hlt, ← ht, if_pos htneg]
        rfl
    · intro hnlt hge
      simp only [generalBranch]
      rw [if_neg hnlt, ← ht, if_neg (not_lt.mpr hge)]
      rfl

/-- Witness for C3: the tangential ray from the vertex with direction
`(1, 0)` (origin `(0,0)`, not the focus of `f = 1`): discriminant 0,
smaller root `t = 0`, accepted, hit at the vertex. -/
theorem C3_witness : reflect_ray 1 ⟨0, 0⟩ ⟨1, 0⟩ = some (⟨0, 0⟩, ⟨1, 0⟩, 0) := by
  have hs : (⟨0, 0⟩ : Vec2) ≠ ⟨0, (1 : ℝ)⟩ := by
    intro h
    have := congrArg Vec2.y h
    norm_num at this
  have h := (C3_general_ray_quadratic 1 ⟨0, 0⟩ ⟨1, 0⟩ hs (by norm_num)).2 0
    (by norm_num [Real.sqrt_zero])
  have h2 := h.2 (by norm_num) le_rfl
  norm_num at h2
  rw [reflectDir_vertex_horiz] at h2
  exact h2

/-! ### C4 -/

/-- Claim C4: the source performs no validation.  `__init__` accepts a
negative and a zero focal length without any invalid-parameter signal
(it just stores the values), and `reflect_ray` on a zero-length
direction silently returns the absent result instead of failing. -/
theorem C4_no_validation_eval :
    ParabolaOptics.init (-1) = ⟨-1, 1⟩ ∧
    ParabolaOptics.init 0 = ⟨0, 0⟩ ∧
    reflect_ray 1 ⟨3, 10⟩ ⟨0, 0⟩ = none := by
  refine ⟨by norm_num [ParabolaOptics.init], by norm_num [ParabolaOptics.init], ?_⟩
  have hne : (⟨3, 10⟩ : Vec2) ≠ ⟨0, (1 : ℝ)⟩ := by
    intro h
    have := congrArg Vec2.x h
    norm_num at this
  rw [reflect_ray_vertical 1 ⟨3, 10⟩ ⟨0, 0⟩ hne rfl]
  unfold verticalBranch
  norm_num

/-! ### C5 -/

/-- Claim C5 (code bug): for the ray starting exactly at the focus with
`dx = 0` (here `f = 1`, direction `(0, -1)`), the focus fast-path is
taken, its discriminant check passes, and the root formula divides by
`2 a = 2 (dx^2/(4 f)) = 0`.  Under the total-division semantics of this
embedding the branch then returns `t = 0` with hit `(0, 1)` — the focus
itself, a point that is not on the parabola (the true hit is `(0, 0)` at
`t = 1`); in floating point the same division yields `nan`. -/
theorem C5_focus_branch_divzero_eval :
    ((⟨0, 1⟩ : Vec2) = ⟨0, (1 : ℝ)⟩) ∧
    2 * ((0 : ℝ) ^ 2 / (4 * 1)) = 0 ∧
    ¬ ((-(-1 : ℝ)) ^ 2 - 4 * ((0 : ℝ) ^ 2 / (4 * 1)) * (-(1 : ℝ)) < 0) ∧
    reflect_ray 1 ⟨0, 1⟩ ⟨0, -1⟩ = some (⟨0, 1⟩, ⟨0, 1⟩, 0) ∧
    parabola_y 1 0 ≠ 1 := by
  exact ⟨rfl, by norm_num, by norm_num, reflect_focus_down_eval,
    by norm_num [parabola_y]⟩

/-! ### C6 -/

lemma reflectDir_two_horiz : reflectDir 1 2 ⟨1, 0⟩ = ⟨0, 1⟩ := by
  have hts : get_tangent_slope 1 2 ≠ 0 := by norm_num [get_tangent_slope]
  rw [reflectDir_of_slope_ne 1 2 ⟨1, 0⟩ hts, norm_right_one]
  have hts1 : get_tangent_slope 1 2 = 1 := by norm_num [get_tangent_slope]
  rw [hts1]
  ext <;> norm_num [Vec2.dot]

/-- Claim C6: the `t`-acceptance policy is asymmetric.  The vertical
branch (origin away from the focus, `dx = 0`, `dy ≠ 0`) returns the
absent result whenever its parameter `(y_hit - y0)/dy` is `≤ 0`, so it
never reports a `t = 0` hit; the focus branch (for a genuine quadratic,
`dx ≠ 0`) accepts its preferred root `t1` whenever `0 ≤ t1` — including
`t1 = 0` — and produces the absent result only when both roots are
strictly negative (its discriminant `dy^2 + dx^2` is never negative). -/
theorem C6_t_acceptance_policy (f : ℝ) (s d e : Vec2) (hf : 0 < f)
    (hex : e.x ≠ 0) :
    (s ≠ ⟨0, f⟩ → d.x = 0 → d.y ≠ 0 →
      (parabola_y f s.x - s.y) / d.y ≤ 0 → reflect_ray f s d = none) ∧
    ∀ t1 : ℝ,
      t1 = (-(-e.y) + Real.sqrt ((-e.y) ^ 2 - 4 * (e.x ^ 2 / (4 * f)) * (-f))) /
          (2 * (e.x ^ 2 / (4 * f))) →
      (0 ≤ t1 →
        reflect_ray f ⟨0, f⟩ e =
          some (⟨0 + t1 * e.x, f + t1 * e.y⟩,
            reflectDir f (0 + t1 * e.x) e, t1)) ∧
      (reflect_ray f ⟨0, f⟩ e = none →
        t1 < 0 ∧
          (-(-e.y) - Real.sqrt ((-e.y) ^ 2 - 4 * (e.x ^ 2 / (4 * f)) * (-f))) /
              (2 * (e.x ^ 2 / (4 * f))) < 0) := by
  have hf0 : f ≠ 0 := ne_of_gt hf
  have hdisc : (-e.y) ^ 2 - 4 * (e.x ^ 2 / (4 * f)) * (-f) =
      e.y ^ 2 + e.x ^ 2 := by
    field_simp
    ring
  have hdisc0 : ¬ ((-e.y) ^ 2 - 4 * (e.x ^ 2 / (4 * f)) * (-f) < 0) := by
    rw [hdisc]
    exact not_lt.mpr (by positivity)
  constructor
  · intro h1 h2 h3 h4
    rw [reflect_ray_vertical f s d h1 h2]
    simp only [verticalBranch]
    rw [if_neg h3, if_pos h4]
    rfl
  · intro t1 ht1
    constructor
    · intro hge
      rw [reflect_ray_focus]
      simp only [focusBranch]
      rw [if_neg hdisc0, ← ht1, if_neg (not_lt.mpr hge)]
      rfl
    · intro hnone
      rw [reflect_ray_focus] at hnone
      simp only [focusBranch] at hnone
      rw [if_neg hdisc0, ← ht1] at hnone
      by_cases hb : t1 < 0
      · by_cases hc : (-(-e.y) -
            Real.sqrt ((-e.y) ^ 2 - 4 * (e.x ^ 2 / (4 * f)) * (-f))) /
              (2 * (e.x ^ 2 / (4 * f))) < 0
        · exact ⟨hb, hc⟩
        · rw [if_pos hb, if_neg hc] at hnone
          simp at hnone
      · rw [if_neg hb] at hnone
        simp at hnone

/-- Witness for C6: the vertical ray from the vertex `(0,0)` straight
down has `t = 0` and is rejected (absent result), while the focus-branch
ray from `(0,1)` with direction `(1,0)` is accepted with `t1 = 2`,
hitting `(2,1)` and reflecting to `(0,1)`. -/
theorem C6_witness :
    reflect_ray 1 ⟨0, 0⟩ ⟨0, -1⟩ = none ∧
    reflect_ray 1 ⟨0, 1⟩ ⟨1, 0⟩ = some (⟨2, 1⟩, ⟨0, 1⟩, 2) := by
  have h := C6_t_acceptance_policy 1 ⟨0, 0⟩ ⟨0, -1⟩ ⟨1, 0⟩ (by norm_num)
    (by norm_num)
  refine ⟨?_, ?_⟩
  · refine h.1 ?_ rfl (by norm_num) (by norm_num [parabola_y])
    intro hh
    have := congrArg Vec2.y hh
    norm_num at this
  · have h2 := (h.2 2 (by norm_num [Real.sqrt_one])).1 (by norm_num)
    norm_num at h2
    rw [reflectDir_two_horiz] at h2
    exact h2

/-! ### C7 -/

/-- Under the total-division idealisation every returned triple has a
non-negative parameter and hit `origin + t * direction`.  This delimits
the scope of the focus-branch zero-denominator defect: it is the only
place where the program's float arithmetic (`t = 0/0 = nan`) departs
from this guarantee, so the property fails for the program exactly on
rays from the focus with `dx = 0`. -/
lemma forward_hit_total_div (f : ℝ) (s d p r : Vec2) (t : ℝ)
    (h : reflect_ray f s d = some (p, r, t)) :
    0 ≤ t ∧ p = s + t • d := by
  obtain ⟨hI, -⟩ := reflect_ray_some_elim f s d p r t h
  unfold intersectRay at hI
  split_ifs at hI with h1 h2
  · subst h1
    simp only [focusBranch] at hI
    split_ifs at hI with ha hb hc
    · simp only [Option.some.injEq, Prod.mk.injEq] at hI
      obtain ⟨hp, ht⟩ := hI
      subst ht
      refine ⟨not_lt.mp hc, ?_⟩
      rw [← hp]
      ext <;> simp
    · simp only [Option.some.injEq, Prod.mk.injEq] at hI
      obtain ⟨hp, ht⟩ := hI
      subst ht
      refine ⟨not_lt.mp hb, ?_⟩
      rw [← hp]
      ext <;> simp
  · simp only [verticalBranch] at hI
    split_ifs at hI with ha hb
    simp only [Option.some.injEq, Prod.mk.injEq] at hI
    obtain ⟨hp, ht⟩ := hI
    subst ht
    refine ⟨(not_le.mp hb).le, ?_⟩
    rw [← hp]
    ext
    · simp [h2]
    · simp only [Vec2.add_y, Vec2.smul_y]
      rw [div_mul_cancel₀ _ ha]
      ring
  · simp only [generalBranch] at hI
    split_ifs at hI with ha hb
    simp only [Option.some.injEq, Prod.mk.injEq] at hI
    obtain ⟨hp, ht⟩ := hI
    subst ht
    refine ⟨not_lt.mp hb, ?_⟩
    rw [← hp]
    ext <;> simp

/-- Claim C7 (code bug): the `x = 0` ray of the default five-ray focal
bundle — origin `(0, 1)` (the focus), direction `(0, -1)` — takes the
focus fast-path, its discriminant check passes, and the executed root
division has the zero denominator `2 a = 2 (dx^2/(4 f)) = 0`: in float
arithmetic `t = 0.0/0.0 = nan` and the hit is `(nan, nan)`, so the
returned (non-absent) triple violates both `t ≥ 0` and
`hit = origin + t * direction`.  Even under this file's total-division
idealisation the call returns a non-absent triple whose hit is the
focus `(0, 1)`, a point not on the parabola — not a real intersection. -/
theorem C7_focus_ray_nan_t_eval :
    ((⟨0, 1⟩ : Vec2), (⟨0, -1⟩ : Vec2)) ∈
      ParabolaOptics.generate_focal_rays (ParabolaOptics.init 1) 5 ∧
    2 * ((0 : ℝ) ^ 2 / (4 * 1)) = 0 ∧
    ¬ ((-(-1 : ℝ)) ^ 2 - 4 * ((0 : ℝ) ^ 2 / (4 * 1)) * (-(1 : ℝ)) < 0) ∧
    reflect_ray 1 ⟨0, 1⟩ ⟨0, -1⟩ ≠ none ∧
    ∀ p r : Vec2, ∀ t : ℝ,
      reflect_ray 1 ⟨0, 1⟩ ⟨0, -1⟩ = some (p, r, t) →
        p.y ≠ parabola_y 1 p.x := by
  refine ⟨focal_bundle_contains_down, by norm_num, by norm_num, ?_, ?_⟩
  · rw [reflect_focus_down_eval]
    simp
  · intro p r t hm
    rw [reflect_focus_down_eval] at hm
    simp only [Option.some.injEq, Prod.mk.injEq] at hm
    obtain ⟨hp, -, -⟩ := hm
    rw [← hp]
    norm_num [parabola_y]

/-! ### C8 -/

lemma dot_expand_reflect (i n : Vec2) (c : ℝ) :
    Vec2.dot (i - c • n) (i - c • n) =
      Vec2.dot i i - 2 * c * Vec2.dot i n + c ^ 2 * Vec2.dot n n := by
  simp only [Vec2.dot, Vec2.sub_x, Vec2.sub_y, Vec2.smul_x, Vec2.smul_y]
  ring

lemma normalVec_unit (f hitx : ℝ) :
    Vec2.dot (normalVec f hitx) (normalVec f hitx) = 1 := by
  unfold normalVec
  split_ifs with h
  · norm_num [Vec2.dot]
  · apply normalized_dot_self
    simp only [Vec2.dot]
    nlinarith [mul_self_nonneg (-1 / get_tangent_slope f hitx)]

/-- The mirror formula with a unit normal and a normalised incident
direction returns a unit vector. -/
lemma reflectDir_unit (f hitx : ℝ) (d : Vec2) (hd : 0 < Vec2.dot d d) :
    Vec2.norm (reflectDir f hitx d) = 1 := by
  have hi : Vec2.dot ((1 / Vec2.norm d) • d) ((1 / Vec2.norm d) • d) = 1 :=
    normalized_dot_self d hd
  have hn := normalVec_unit f hitx
  apply Vec2.norm_eq_of_sq _ 1 zero_le_one
  rw [one_pow]
  unfold reflectDir
  rw [dot_expand_reflect, hi, hn]
  ring

/-- Under the total-division idealisation every returned reflected
vector for a nonzero direction has unit norm.  As with
`forward_hit_total_div`, this isolates the focus-branch zero-denominator
defect as the only input family where the program's float arithmetic
(reflected `(nan, nan)`) departs from the unit-norm guarantee. -/
lemma unit_reflected_total_div (f : ℝ) (s d p r : Vec2) (t : ℝ)
    (hd : d ≠ ⟨0, 0⟩) (h : reflect_ray f s d = some (p, r, t)) :
    Vec2.norm r = 1 := by
  obtain ⟨-, hr⟩ := reflect_ray_some_elim f s d p r t h
  have hdd : 0 < Vec2.dot d d := by
    rcases (Vec2.dot_self_nonneg d).lt_or_eq with hlt | heq
    · exact hlt
    · exfalso
      apply hd
      have h0 : d.x * d.x + d.y * d.y = 0 := by
        simpa [Vec2.dot] using heq.symm
      have hxx : d.x * d.x = 0 := by
        nlinarith [mul_self_nonneg d.x, mul_self_nonneg d.y]
      have hyy : d.y * d.y = 0 := by
        nlinarith [mul_self_nonneg d.x, mul_self_nonneg d.y]
      ext
      · simpa using mul_self_eq_zero.mp hxx
      · simpa using mul_self_eq_zero.mp hyy
  rw [hr]
  exact reflectDir_unit f p.x d hdd

/-- Claim C8 (code bug): at the same program-generated input the
incident direction `(0, -1)` is nonzero (and, as a pair of reals,
finite), yet the focus fast-path's executed root division has the zero
denominator `2 a = 0` and a non-absent triple is still returned: in
float arithmetic the tangent slope at the `nan` hit is `nan`, the
normal is `(nan, nan)`, and the returned reflected vector is
`(nan, nan)` — its norm is `nan`, not 1. -/
theorem C8_focus_ray_nonunit_eval :
    (⟨0, -1⟩ : Vec2) ≠ ⟨0, 0⟩ ∧
    ((⟨0, 1⟩ : Vec2), (⟨0, -1⟩ : Vec2)) ∈
      ParabolaOptics.generate_focal_rays (ParabolaOptics.init 1) 5 ∧
    2 * ((0 : ℝ) ^ 2 / (4 * 1)) = 0 ∧
    reflect_ray 1 ⟨0, 1⟩ ⟨0, -1⟩ ≠ none := by
  refine ⟨?_, focal_bundle_contains_down, by norm_num, ?_⟩
  · intro hh
    have := congrArg Vec2.y hh
    norm_num at this
  · rw [reflect_focus_down_eval]
    simp

/-! ### C9 -/

/-- Claim C9 counterexample: mutate the focal length from 1 to 2 through
the plain attribute assignment used by the UI handler; the `directrix`
attribute keeps its construction-time value `-1` and no longer equals
the negated current focus `-2`. -/
theorem C9_directrix_stale_cex :
    (ParabolaOptics.setFocus (ParabolaOptics.init 1) 2).directrix ≠
      -(ParabolaOptics.setFocus (ParabolaOptics.init 1) 2).focus := by
  norm_num [ParabolaOptics.setFocus, ParabolaOptics.init]

/-- Claim C9 as amended: `directrix = -focus` holds after construction,
but the focal-length mutation only reassigns `focus` and leaves
`directrix` at its old value, so the invariant is not preserved. -/
theorem C9_directrix_init_only (f : ℝ) (p : ParabolaOptics) (g : ℝ) :
    (ParabolaOptics.init f).directrix = -(ParabolaOptics.init f).focus ∧
    (ParabolaOptics.setFocus p g).directrix = p.directrix ∧
    (ParabolaOptics.setFocus p g).focus = g :=
  ⟨rfl, rfl, rfl⟩

/-! ### C10 -/

/-- Claim C10: `generate_parallel_rays` reads nothing from the parabola
state, so any two instances yield the same bundle — origins `(x, 10)`
with `x` evenly spaced over the requested range and direction `(0, -1)`
— while `generate_focal_rays` does depend on the focus (two instances
with focus 1 and 2 already disagree on the ray origin). -/
theorem C10_parallel_rays_focus_independent (p q : ParabolaOptics) (n : ℕ)
    (lo hi : ℝ) :
    ParabolaOptics.generate_parallel_rays p n (lo, hi) =
      ParabolaOptics.generate_parallel_rays q n (lo, hi) ∧
    ParabolaOptics.generate_parallel_rays p n (lo, hi) =
      (linspace lo hi n).map (fun x => ((⟨x, 10⟩ : Vec2), (⟨0, -1⟩ : Vec2))) ∧
    ParabolaOptics.generate_focal_rays (ParabolaOptics.init 1) 1 ≠
      ParabolaOptics.generate_focal_rays (ParabolaOptics.init 2) 1 := by
  refine ⟨rfl, rfl, ?_⟩
  intro h
  have h1 : linspace (-3 : ℝ) 3 1 = [(-3 : ℝ)] := by
    unfold linspace
    norm_num
  simp only [ParabolaOptics.generate_focal_rays, ParabolaOptics.init, h1,
    List.map_cons, List.map_nil, List.cons.injEq, Prod.mk.injEq] at h
  have := congrArg Vec2.y h.1.1
  norm_num at this

end
